import Mathlib

/-!
Verification of the streaming transcript controller of the chat front-end.

The embedded code is `src/frontend/src/App.jsx` (the functions `handleSubmit`,
`handleRegularChat`, `handleRagChat` and the per-chunk conversation updater)
together with the earlier revision `src/unnamed/part_001` (its `handleSubmit`).

Modelling conventions:
* JS strings are modelled as lists of Unicode code points (`List Nat`); byte
  chunks arriving from the response body are `List Nat` of byte values.
* The browser's `TextDecoder` is modelled by a greedy UTF-8 decoder
  (`utf8DecodeLoop`): it returns the decoded code points of the maximal
  complete prefix together with the trailing incomplete byte sequence.  With
  `{ stream: true }` (used by `App.jsx`) the trailing bytes are carried over
  to the next call; without it (`part_001` builds a fresh `TextDecoder` per
  chunk) an incomplete trailing sequence is flushed to U+FFFD
  (`utf8DecodeFull`).  The model agrees with the WHATWG decoder on all
  well-formed inputs and on incomplete tails; on malformed bytes it emits
  U+FFFD and resynchronises at the byte after the bad lead byte (the exact
  number of replacement characters on malformed input is not relied upon by
  any theorem below).
* React `setState` updates are applied in their queued order; a run of a
  submission is a trace of application states, one entry per state mutation.
  The network is an oracle value (`FetchResult`) fixed per submit.
-/

namespace Chat

/-- The `type` field of a conversation entry: `"user"` or `"assistant"`. -/
inductive Role
  | user
  | assistant
deriving DecidableEq, Repr

/-- One conversation entry, `{ type, content, timestamp }` in the source. -/
structure Msg where
  type : Role
  content : List Nat
  timestamp : Nat
deriving DecidableEq, Repr

/-- JS whitespace (the set removed by `String.prototype.trim`). -/
def isJsWhitespace (c : Nat) : Bool :=
  c == 0x9 || c == 0xA || c == 0xB || c == 0xC || c == 0xD || c == 0x20 ||
  c == 0xA0 || c == 0x1680 || (0x2000 ≤ c && c ≤ 0x200A) || c == 0x2028 ||
  c == 0x2029 || c == 0x202F || c == 0x205F || c == 0x3000 || c == 0xFEFF

/-- `String.prototype.trim`: strip leading and trailing whitespace. -/
def jsTrim (s : List Nat) : List Nat :=
  ((s.dropWhile isJsWhitespace).reverse.dropWhile isJsWhitespace).reverse

/-- Is `b` a UTF-8 continuation byte (`10xxxxxx`)? -/
def isCont (b : Nat) : Bool := 0x80 ≤ b && b < 0xC0

/-- Number of continuation bytes required after the byte `b`:
`110xxxxx` needs 1, `1110xxxx` needs 2, `11110xxx` needs 3; ASCII and bytes
that cannot start a sequence need 0 (they decode on their own). -/
def utf8Need (b : Nat) : Nat :=
  if b < 0xC0 then 0
  else if b < 0xE0 then 1
  else if b < 0xF0 then 2
  else if b < 0xF8 then 3
  else 0

/-- Payload bits of a lead byte (U+FFFD for bytes that are not a valid
sequence start: stray continuation bytes and `0xF8..0xFF`). -/
def utf8LeadVal (b : Nat) : Nat :=
  if b < 0x80 then b
  else if b < 0xC0 then 0xFFFD
  else if b < 0xE0 then b - 0xC0
  else if b < 0xF0 then b - 0xE0
  else if b < 0xF8 then b - 0xF0
  else 0xFFFD

/-- Code point assembled from a lead byte and its continuation bytes. -/
def utf8CharVal (b : Nat) (conts : List Nat) : Nat :=
  conts.foldl (fun acc x => acc * 0x40 + (x - 0x80)) (utf8LeadVal b)

/-- Fuel-indexed greedy UTF-8 decoding; the fuel only bounds the number of
steps (one per emitted unit) and is irrelevant once it is at least the number
of input bytes (`utf8DecodeGo_fuel`). -/
def utf8DecodeGo : Nat → List Nat → List Nat × List Nat
  | _, [] => ([], [])
  | 0, bs => ([], bs)
  | fuel + 1, b :: bs =>
    if utf8Need b ≤ bs.length ∧ (bs.take (utf8Need b)).all isCont = true then
      (utf8CharVal b (bs.take (utf8Need b)) ::
         (utf8DecodeGo fuel (bs.drop (utf8Need b))).1,
       (utf8DecodeGo fuel (bs.drop (utf8Need b))).2)
    else if bs.all isCont = true then
      ([], b :: bs)
    else
      (0xFFFD :: (utf8DecodeGo fuel bs).1, (utf8DecodeGo fuel bs).2)

/-- Greedy UTF-8 decode of a byte list: the decoded code points of the
maximal complete prefix, and the trailing incomplete sequence (an incomplete
final character whose bytes so far are valid).  This models one
`TextDecoder.decode` call on the buffered bytes. -/
def utf8DecodeLoop (bs : List Nat) : List Nat × List Nat :=
  utf8DecodeGo bs.length bs

/-- A non-streaming `TextDecoder.decode` call (as in `part_001`, which builds
`new TextDecoder()` per chunk): an incomplete trailing sequence is flushed to
a single U+FFFD instead of being buffered. -/
def utf8DecodeFull (bs : List Nat) : List Nat :=
  if (utf8DecodeLoop bs).2 = [] then (utf8DecodeLoop bs).1
  else (utf8DecodeLoop bs).1 ++ [0xFFFD]

theorem utf8DecodeGo_fuel (fuel fuel' : Nat) (bs : List Nat)
    (h : bs.length ≤ fuel) (h' : bs.length ≤ fuel') :
    utf8DecodeGo fuel bs = utf8DecodeGo fuel' bs := by
  induction fuel generalizing fuel' bs with
  | zero =>
    have : bs = [] := List.length_eq_zero.mp (Nat.le_zero.mp h)
    subst this
    cases fuel' <;> rfl
  | succ fuel ih =>
    cases bs with
    | nil => cases fuel' <;> rfl
    | cons b bs =>
      cases fuel' with
      | zero => simp at h'
      | succ fuel' =>
        simp only [utf8DecodeGo]
        have hlen : bs.length ≤ fuel := by
          simpa [Nat.succ_le_succ_iff] using h
        have hlen' : bs.length ≤ fuel' := by
          simpa [Nat.succ_le_succ_iff] using h'
        have hdrop : (bs.drop (utf8Need b)).length ≤ fuel := by
          simp only [List.length_drop]; omega
        have hdrop' : (bs.drop (utf8Need b)).length ≤ fuel' := by
          simp only [List.length_drop]; omega
        rw [ih fuel' (bs.drop (utf8Need b)) hdrop hdrop', ih fuel' bs hlen hlen']

/-- Unfolding equation of `utf8DecodeLoop` on a nonempty byte list. -/
theorem utf8DecodeLoop_cons (b : Nat) (bs : List Nat) :
    utf8DecodeLoop (b :: bs) =
      if utf8Need b ≤ bs.length ∧ (bs.take (utf8Need b)).all isCont = true then
        (utf8CharVal b (bs.take (utf8Need b)) ::
           (utf8DecodeLoop (bs.drop (utf8Need b))).1,
         (utf8DecodeLoop (bs.drop (utf8Need b))).2)
      else if bs.all isCont = true then
        ([], b :: bs)
      else
        (0xFFFD :: (utf8DecodeLoop bs).1, (utf8DecodeLoop bs).2) := by
  show utf8DecodeGo (b :: bs).length (b :: bs) = _
  simp only [List.length_cons, utf8DecodeGo, utf8DecodeLoop]
  have h1 : utf8DecodeGo bs.length (bs.drop (utf8Need b)) =
      utf8DecodeGo (bs.drop (utf8Need b)).length (bs.drop (utf8Need b)) := by
    apply utf8DecodeGo_fuel
    · simp only [List.length_drop]; omega
    · exact Nat.le_refl _
  rw [h1]

theorem utf8DecodeLoop_nil : utf8DecodeLoop [] = ([], []) := rfl

/-- Streaming correctness of the greedy decoder: decoding `a ++ b` is the
same as decoding `a`, keeping its incomplete tail, and then decoding that
tail followed by `b`.  This is the carried-partial-byte-state property of
`TextDecoder` with `{ stream: true }`. -/
theorem utf8DecodeLoop_append (a b : List Nat) :
    utf8DecodeLoop (a ++ b) =
      ((utf8DecodeLoop a).1 ++ (utf8DecodeLoop ((utf8DecodeLoop a).2 ++ b)).1,
       (utf8DecodeLoop ((utf8DecodeLoop a).2 ++ b)).2) := by
  cases a with
  | nil => simp [utf8DecodeLoop_nil]
  | cons b0 bs =>
    rw [List.cons_append, utf8DecodeLoop_cons b0 bs]
    by_cases hc : utf8Need b0 ≤ bs.length ∧ (bs.take (utf8Need b0)).all isCont = true
    · have hle : utf8Need b0 ≤ bs.length := hc.1
      have hc' : utf8Need b0 ≤ (bs ++ b).length ∧
          ((bs ++ b).take (utf8Need b0)).all isCont = true := by
        rw [List.take_append_of_le_length hle]
        simp only [List.length_append]
        exact ⟨Nat.le_add_right_of_le hle, hc.2⟩
      rw [utf8DecodeLoop_cons b0 (bs ++ b), if_pos hc, if_pos hc',
        List.take_append_of_le_length hle, List.drop_append_of_le_length hle,
        utf8DecodeLoop_append (bs.drop (utf8Need b0)) b]
      simp
    · rw [if_neg hc]
      by_cases hall : bs.all isCont = true
      · rw [if_pos hall]
        simp
      · rw [if_neg hall]
        have hc' : ¬(utf8Need b0 ≤ (bs ++ b).length ∧
            ((bs ++ b).take (utf8Need b0)).all isCont = true) := by
          rintro ⟨-, htake⟩
          by_cases hle : utf8Need b0 ≤ bs.length
          · rw [List.take_append_of_le_length hle] at htake
            exact hc ⟨hle, htake⟩
          · apply hall
            rw [List.all_eq_true] at htake ⊢
            intro x hx
            apply htake
            rw [List.take_append_eq_append_take]
            refine List.mem_append_left _ ?_
            rw [List.take_of_length_le (by omega)]
            exact hx
        have hall' : ¬((bs ++ b).all isCont = true) := by
          simp only [List.all_append, Bool.and_eq_true]
          intro hcontra
          exact hall hcontra.1
        rw [utf8DecodeLoop_cons b0 (bs ++ b), if_neg hc', if_neg hall',
          utf8DecodeLoop_append bs b]
        simp
termination_by a.length
decreasing_by
  all_goals simp only [List.length_cons, List.length_drop]
  all_goals omega

/-- The incomplete tail left by the decoder is stable: decoding it alone
emits nothing and leaves it pending again. -/
theorem utf8DecodeLoop_snd_stuck (a : List Nat) :
    utf8DecodeLoop ((utf8DecodeLoop a).2) = ([], (utf8DecodeLoop a).2) := by
  cases a with
  | nil => simp [utf8DecodeLoop_nil]
  | cons b0 bs =>
    rw [utf8DecodeLoop_cons b0 bs]
    by_cases hc : utf8Need b0 ≤ bs.length ∧ (bs.take (utf8Need b0)).all isCont = true
    · rw [if_pos hc]
      exact utf8DecodeLoop_snd_stuck (bs.drop (utf8Need b0))
    · rw [if_neg hc]
      by_cases hall : bs.all isCont = true
      · rw [if_pos hall]
        rw [utf8DecodeLoop_cons b0 bs, if_neg hc, if_pos hall]
      · rw [if_neg hall]
        exact utf8DecodeLoop_snd_stuck bs
termination_by a.length
decreasing_by
  all_goals simp only [List.length_cons, List.length_drop]
  all_goals omega


/-! ## Application state and network model -/

/-- Status object returned by `/api/data-file-indexing-status` (the part the
controller reads). -/
structure DataFileStatus where
  is_indexed : Bool
  chunks_count : Nat
deriving DecidableEq, Repr

/-- The React component state touched by the submit path of `App.jsx`. -/
structure AppState where
  SystemMessage : List Nat
  userMessage : List Nat
  model : List Nat
  apiKey : List Nat
  loading : Bool
  error : String
  conversation : List Msg
  isRagMode : Bool
  dataFileStatus : Option DataFileStatus
deriving DecidableEq, Repr

/-- A response body: the byte chunks delivered by `reader.read()` in arrival
order, and, optionally, an error with which the read rejects after the last
chunk (`none` = clean end of stream). -/
structure StreamBody where
  chunks : List (List Nat)
  streamError : Option String
deriving DecidableEq, Repr

/-- Outcome of the `fetch` call: a transport failure (the promise rejects
with message `msg`), or a response with an HTTP status and an optional body. -/
inductive FetchResult
  | netError (msg : String)
  | response (status : Nat) (body : Option StreamBody)
deriving DecidableEq, Repr

/-- `res.ok`: status in the inclusive range 200–299. -/
def resOk (status : Nat) : Bool := 200 ≤ status && status ≤ 299

/-- Which backend endpoint a request was posted to. -/
inductive Endpoint
  | chat
  | ragChat
deriving DecidableEq, Repr

/-- An outbound chat request (the JSON body fields the controller sends;
`model` is only sent by the plain-chat path). -/
structure ChatRequest where
  endpoint : Endpoint
  system_message : List Nat
  user_message : List Nat
  model : Option (List Nat)
  api_key : List Nat
deriving DecidableEq, Repr

/-- Result of running one submission: the trace of application states (first
entry = the state at submission start, last entry = the final state) and the
network requests dispatched. -/
structure SubmitResult where
  trace : List AppState
  requests : List ChatRequest
deriving DecidableEq, Repr

/-- The state a submission run ends in. -/
def finalOf (s : AppState) (r : SubmitResult) : AppState := r.trace.getLastD s

/-- `err.message || fallback`: JS `||` takes the fallback on an empty string. -/
def jsOr (m fallback : String) : String := if m = "" then fallback else m

/-- The message of the error thrown on a non-ok response:
``HTTP error! status: ${res.status}``. -/
def httpErrorMessage (status : Nat) : String :=
  "HTTP error! status: " ++ toString status

/-! ## The per-chunk conversation update and the streaming loop -/

/-- The functional `setConversation` updater ran after each chunk
(`App.jsx` lines 227–237 and 425–435): copy the list and, when the list is
nonempty and its last entry is an assistant turn, replace that entry's
`content` wholesale with the accumulated text. -/
def updateLastAssistant (conv : List Msg) (result : List Nat) : List Msg :=
  match conv.getLast? with
  | none => conv
  | some m =>
    if m.type = Role.assistant then conv.dropLast ++ [{ m with content := result }]
    else conv

/-- The running state of the read loop: the accumulator `result`, the
undecoded tail buffered inside the `TextDecoder`, and the conversation. -/
structure StreamState where
  result : List Nat
  pending : List Nat
  conv : List Msg
deriving DecidableEq, Repr

/-- One iteration of the `while (true)` read loop of `handleRegularChat` /
`handleRagChat`: decode the chunk with carried state, append to the
accumulator, republish the last assistant turn. -/
def consumeChunk (st : StreamState) (chunk : List Nat) : StreamState :=
  { result := st.result ++ (utf8DecodeLoop (st.pending ++ chunk)).1
    pending := (utf8DecodeLoop (st.pending ++ chunk)).2
    conv := updateLastAssistant st.conv
      (st.result ++ (utf8DecodeLoop (st.pending ++ chunk)).1) }

/-- Run the read loop over all chunks. -/
def consumeChunks : StreamState → List (List Nat) → StreamState
  | st, [] => st
  | st, chunk :: rest => consumeChunks (consumeChunk st chunk) rest

/-- The intermediate stream states, one per chunk, in order. -/
def consumeChunksTrace : StreamState → List (List Nat) → List StreamState
  | _, [] => []
  | st, chunk :: rest => consumeChunk st chunk :: consumeChunksTrace (consumeChunk st chunk) rest

/-! ## The submit handlers of `src/frontend/src/App.jsx` -/

/-- The tail of a run that enters the `catch` block at a point where the
conversation is `sAt.conversation`: `setError(err.message || "Unknown error
occurred")`, then `setConversation(prev => prev.slice(0, -1))`, then the
`finally` block's `setLoading(false)`. -/
def catchTail (sAt : AppState) (msg : String) : List AppState :=
  [{ sAt with error := jsOr msg "Unknown error occurred" },
   { sAt with error := jsOr msg "Unknown error occurred",
              conversation := sAt.conversation.dropLast },
   { sAt with error := jsOr msg "Unknown error occurred",
              conversation := sAt.conversation.dropLast, loading := false }]

/-- `handleRegularChat` (`App.jsx` lines 179–247), as a function of the
state at entry, the network oracle, and the two `new Date()` timestamps. -/
def handleRegularChat (s : AppState) (fetch : FetchResult) (tU tA : Nat) :
    SubmitResult :=
  if jsTrim s.userMessage = [] then ⟨[s], []⟩
  else
    let s1 := { s with loading := true }
    let s2 := { s1 with error := "" }
    let s3 := { s2 with conversation :=
      s2.conversation ++ [⟨Role.user, s.userMessage, tU⟩] }
    let s4 := { s3 with userMessage := [] }
    let req : ChatRequest :=
      ⟨Endpoint.chat, s.SystemMessage, s.userMessage, some s.model, s.apiKey⟩
    match fetch with
    | FetchResult.netError msg => ⟨[s, s1, s2, s3, s4] ++ catchTail s4 msg, [req]⟩
    | FetchResult.response status body =>
      if resOk status = false then
        ⟨[s, s1, s2, s3, s4] ++ catchTail s4 (httpErrorMessage status), [req]⟩
      else
        match body with
        | none => ⟨[s, s1, s2, s3, s4] ++ catchTail s4 "No response body", [req]⟩
        | some sb =>
          let s5 := { s4 with conversation :=
            s4.conversation ++ [⟨Role.assistant, [], tA⟩] }
          let st0 : StreamState := ⟨[], [], s5.conversation⟩
          let streamStates := (consumeChunksTrace st0 sb.chunks).map
            (fun st => { s5 with conversation := st.conv })
          let sEnd := { s5 with conversation := (consumeChunks st0 sb.chunks).conv }
          match sb.streamError with
          | none =>
            ⟨[s, s1, s2, s3, s4, s5] ++ streamStates ++
               [{ sEnd with loading := false }], [req]⟩
          | some msg =>
            ⟨[s, s1, s2, s3, s4, s5] ++ streamStates ++ catchTail sEnd msg, [req]⟩

/-- `dataFileStatus?.is_indexed` (falsy when `dataFileStatus` is null). -/
def isIndexed (s : AppState) : Bool :=
  match s.dataFileStatus with
  | some d => d.is_indexed
  | none => false

/-- `handleRagChat` (`App.jsx` lines 378–445): same controller as
`handleRegularChat` but guarded on an indexed data file, posting to
`/api/rag-chat` without a `model` field. -/
def handleRagChat (s : AppState) (fetch : FetchResult) (tU tA : Nat) :
    SubmitResult :=
  if jsTrim s.userMessage = [] ∨ isIndexed s = false then ⟨[s], []⟩
  else
    let s1 := { s with loading := true }
    let s2 := { s1 with error := "" }
    let s3 := { s2 with conversation :=
      s2.conversation ++ [⟨Role.user, s.userMessage, tU⟩] }
    let s4 := { s3 with userMessage := [] }
    let req : ChatRequest :=
      ⟨Endpoint.ragChat, s.SystemMessage, s.userMessage, none, s.apiKey⟩
    match fetch with
    | FetchResult.netError msg => ⟨[s, s1, s2, s3, s4] ++ catchTail s4 msg, [req]⟩
    | FetchResult.response status body =>
      if resOk status = false then
        ⟨[s, s1, s2, s3, s4] ++ catchTail s4 (httpErrorMessage status), [req]⟩
      else
        match body with
        | none => ⟨[s, s1, s2, s3, s4] ++ catchTail s4 "No response body", [req]⟩
        | some sb =>
          let s5 := { s4 with conversation :=
            s4.conversation ++ [⟨Role.assistant, [], tA⟩] }
          let st0 : StreamState := ⟨[], [], s5.conversation⟩
          let streamStates := (consumeChunksTrace st0 sb.chunks).map
            (fun st => { s5 with conversation := st.conv })
          let sEnd := { s5 with conversation := (consumeChunks st0 sb.chunks).conv }
          match sb.streamError with
          | none =>
            ⟨[s, s1, s2, s3, s4, s5] ++ streamStates ++
               [{ sEnd with loading := false }], [req]⟩
          | some msg =>
            ⟨[s, s1, s2, s3, s4, s5] ++ streamStates ++ catchTail sEnd msg, [req]⟩

/-- `handleSubmit` (`App.jsx` lines 166–176): ignore blank input, then
dispatch on `isRagMode && dataFileStatus?.is_indexed`. -/
def handleSubmit (s : AppState) (fetch : FetchResult) (tU tA : Nat) :
    SubmitResult :=
  if jsTrim s.userMessage = [] then ⟨[s], []⟩
  else if s.isRagMode = true ∧ isIndexed s = true then handleRagChat s fetch tU tA
  else handleRegularChat s fetch tU tA

/-! ## The submit handler of the earlier revision `src/unnamed/part_001` -/

/-- The per-chunk conversation updater of `part_001` (lines 76–83): replaces
the last entry's content without checking its role. -/
def updateLastP001 (conv : List Msg) (result : List Nat) : List Msg :=
  match conv.getLast? with
  | none => conv
  | some m => conv.dropLast ++ [{ m with content := result }]

/-- One read-loop iteration of `part_001` (lines 70–84): the chunk is decoded
by a fresh `new TextDecoder()` (no carried state, incomplete tails flushed to
U+FFFD) and appended to the accumulator. -/
def consumeChunkP001 (st : StreamState) (chunk : List Nat) : StreamState :=
  { result := st.result ++ utf8DecodeFull chunk
    pending := []
    conv := updateLastP001 st.conv (st.result ++ utf8DecodeFull chunk) }

/-- Run the `part_001` read loop over all chunks. -/
def consumeChunksP001 : StreamState → List (List Nat) → StreamState
  | st, [] => st
  | st, chunk :: rest => consumeChunksP001 (consumeChunkP001 st chunk) rest

/-- `handleSubmit` of `src/unnamed/part_001` (lines 37–92).  It differs from
`handleRegularChat` in that it does not check `res.ok` and decodes each chunk
with a fresh `TextDecoder`. -/
def handleSubmitP001 (s : AppState) (fetch : FetchResult) (tU tA : Nat) :
    SubmitResult :=
  if jsTrim s.userMessage = [] then ⟨[s], []⟩
  else
    let s1 := { s with loading := true }
    let s2 := { s1 with error := "" }
    let s3 := { s2 with conversation :=
      s2.conversation ++ [⟨Role.user, s.userMessage, tU⟩] }
    let s4 := { s3 with userMessage := [] }
    let req : ChatRequest :=
      ⟨Endpoint.chat, s.SystemMessage, s.userMessage, some s.model, s.apiKey⟩
    match fetch with
    | FetchResult.netError msg => ⟨[s, s1, s2, s3, s4] ++ catchTail s4 msg, [req]⟩
    | FetchResult.response _ body =>
      match body with
      | none => ⟨[s, s1, s2, s3, s4] ++ catchTail s4 "No response body", [req]⟩
      | some sb =>
        let s5 := { s4 with conversation :=
          s4.conversation ++ [⟨Role.assistant, [], tA⟩] }
        let st0 : StreamState := ⟨[], [], s5.conversation⟩
        let sEnd := { s5 with conversation := (consumeChunksP001 st0 sb.chunks).conv }
        match sb.streamError with
        | none => ⟨[s, s1, s2, s3, s4, s5] ++ [{ sEnd with loading := false }], [req]⟩
        | some msg => ⟨[s, s1, s2, s3, s4, s5] ++ catchTail sEnd msg, [req]⟩


/-! ## Generic list helpers -/

theorem getLastD_append_right {α : Type} (l1 l2 : List α) (d : α) (h : l2 ≠ []) :
    (l1 ++ l2).getLastD d = l2.getLastD d := by
  rw [List.getLastD_eq_getLast?, List.getLastD_eq_getLast?,
    List.getLast?_append_of_ne_nil l1 h]

theorem getLastD_mem_or {α : Type} (l : List α) (d : α) :
    l.getLastD d = d ∨ l.getLastD d ∈ l := by
  rw [List.getLastD_eq_getLast?]
  cases h : l.getLast? with
  | none => exact Or.inl rfl
  | some a =>
    right
    simp only [Option.getD_some]
    exact List.mem_of_mem_getLast? (by rw [h]; rfl)

/-! ## Behaviour of the read loop -/

/-- Updating the last entry of a conversation ending in an assistant turn
replaces that turn's content wholesale. -/
theorem updateLastAssistant_concat (pre : List Msg) (r0 r : List Nat) (t : Nat) :
    updateLastAssistant (pre ++ [⟨Role.assistant, r0, t⟩]) r =
      pre ++ [⟨Role.assistant, r, t⟩] := by
  simp [updateLastAssistant, List.getLast?_concat, List.dropLast_concat]

/-- Full behaviour of the read loop when it starts on a conversation ending
in an assistant turn whose content is the accumulator: the final accumulator
is the streaming decode of the concatenated bytes, and the last turn's
content tracks it. -/
theorem consumeChunks_run (cs : List (List Nat)) (pre : List Msg)
    (res pending : List Nat) (tA : Nat)
    (hstuck : utf8DecodeLoop pending = ([], pending)) :
    consumeChunks ⟨res, pending, pre ++ [⟨Role.assistant, res, tA⟩]⟩ cs =
      ⟨res ++ (utf8DecodeLoop (pending ++ cs.flatten)).1,
       (utf8DecodeLoop (pending ++ cs.flatten)).2,
       pre ++ [⟨Role.assistant,
         res ++ (utf8DecodeLoop (pending ++ cs.flatten)).1, tA⟩]⟩ := by
  induction cs generalizing res pending with
  | nil =>
    simp [consumeChunks, hstuck]
  | cons c cs ih =>
    simp only [consumeChunks, consumeChunk, updateLastAssistant_concat,
      List.flatten_cons]
    rw [ih (res ++ (utf8DecodeLoop (pending ++ c)).1) (utf8DecodeLoop (pending ++ c)).2
      (utf8DecodeLoop_snd_stuck (pending ++ c))]
    have hap := utf8DecodeLoop_append (pending ++ c) cs.flatten
    rw [List.append_assoc pending c cs.flatten] at hap
    rw [hap]
    simp [List.append_assoc]

/-- Every intermediate state of the read loop keeps the conversation shape
`pre ++ [assistant turn]` (same `pre`, same timestamp). -/
theorem consumeChunksTrace_conv (cs : List (List Nat)) (st : StreamState)
    (pre : List Msg) (tA : Nat) (h : ∃ r, st.conv = pre ++ [⟨Role.assistant, r, tA⟩]) :
    ∀ st' ∈ consumeChunksTrace st cs, ∃ r', st'.conv = pre ++ [⟨Role.assistant, r', tA⟩] := by
  induction cs generalizing st with
  | nil => simp [consumeChunksTrace]
  | cons c cs ih =>
    obtain ⟨r, hr⟩ := h
    have h1 : (consumeChunk st c).conv =
        pre ++ [⟨Role.assistant, st.result ++ (utf8DecodeLoop (st.pending ++ c)).1, tA⟩] := by
      simp [consumeChunk, hr, updateLastAssistant_concat]
    intro st' hst'
    simp only [consumeChunksTrace, List.mem_cons] at hst'
    rcases hst' with rfl | hst'
    · exact ⟨_, h1⟩
    · exact ih (consumeChunk st c) ⟨_, h1⟩ st' hst'

/-- The final state of the read loop also keeps that shape. -/
theorem consumeChunks_conv (cs : List (List Nat)) (st : StreamState)
    (pre : List Msg) (tA : Nat) (h : ∃ r, st.conv = pre ++ [⟨Role.assistant, r, tA⟩]) :
    ∃ r', (consumeChunks st cs).conv = pre ++ [⟨Role.assistant, r', tA⟩] := by
  induction cs generalizing st with
  | nil => simpa [consumeChunks] using h
  | cons c cs ih =>
    obtain ⟨r, hr⟩ := h
    have h1 : (consumeChunk st c).conv =
        pre ++ [⟨Role.assistant, st.result ++ (utf8DecodeLoop (st.pending ++ c)).1, tA⟩] := by
      simp [consumeChunk, hr, updateLastAssistant_concat]
    exact ih (consumeChunk st c) ⟨_, h1⟩

/-! ## Transcript invariants -/

/-- One atomic conversation transition: unchanged, append one turn, remove
the last turn, or replace the last turn's content (only the last element may
be "in flight"). -/
def convStep (c1 c2 : List Msg) : Prop :=
  c2 = c1 ∨ (∃ m, c2 = c1 ++ [m]) ∨ c2 = c1.dropLast ∨
  (∃ m r, c1.getLast? = some m ∧ c2 = c1.dropLast ++ [{ m with content := r }])

/-- Conversations reachable as the durable value between submissions: blocks
of `[user]` (a failed pairing) or `[user, assistant]` (a completed pairing). -/
inductive GoodConv : List Msg → Prop
  | nil : GoodConv []
  | user (l : List Msg) (m : Msg) (hl : GoodConv l) (hm : m.type = Role.user) :
      GoodConv (l ++ [m])
  | pair (l : List Msg) (mu ma : Msg) (hl : GoodConv l) (hu : mu.type = Role.user)
      (ha : ma.type = Role.assistant) : GoodConv (l ++ [mu, ma])

/-- The two assistant-placement invariants of the transcript: the first turn
is not an assistant turn, and no two adjacent turns are both assistant turns
(together: every assistant turn is immediately preceded by a user turn). -/
def assistantOk (conv : List Msg) : Prop :=
  (∀ m ∈ conv.head?, m.type ≠ Role.assistant) ∧
  List.Chain' (fun a b => ¬(a.type = Role.assistant ∧ b.type = Role.assistant)) conv

theorem goodConv_assistantOk (c : List Msg) (h : GoodConv c) : assistantOk c := by
  induction h with
  | nil => exact ⟨by simp, List.chain'_nil⟩
  | user l m hl hm ih =>
    constructor
    · intro x hx
      cases l with
      | nil =>
        simp at hx
        subst hx
        simp [hm]
      | cons y ys =>
        rw [List.cons_append] at hx
        simp at hx
        subst hx
        exact ih.1 y (by simp)
    · rw [List.chain'_append]
      refine ⟨ih.2, List.chain'_singleton m, ?_⟩
      intro x hx y hy
      simp at hy
      subst hy
      simp [hm]
  | pair l mu ma hl hu ha ih =>
    constructor
    · intro x hx
      cases l with
      | nil =>
        simp at hx
        subst hx
        simp [hu]
      | cons y ys =>
        rw [List.cons_append] at hx
        simp at hx
        subst hx
        exact ih.1 y (by simp)
    · rw [List.chain'_append]
      refine ⟨ih.2, ?_, ?_⟩
      · refine List.chain'_cons.mpr ⟨?_, List.chain'_singleton ma⟩
        simp [hu]
      · intro x hx y hy
        simp at hy
        subst hy
        simp [hu]


/-- The last stream state of the trace is the final state of the loop. -/
theorem consumeChunksTrace_getLastD (cs : List (List Nat)) (st : StreamState) :
    (consumeChunksTrace st cs).getLastD st = consumeChunks st cs := by
  induction cs generalizing st with
  | nil => rfl
  | cons c cs ih =>
    rw [consumeChunksTrace, List.getLastD_cons, ih, consumeChunks]

/-- Adjacent states of the read loop are related by a content update of the
last (assistant) turn. -/
theorem consumeChunksTrace_chain (cs : List (List Nat)) (st : StreamState)
    (pre : List Msg) (tA : Nat)
    (h : ∃ r, st.conv = pre ++ [⟨Role.assistant, r, tA⟩]) :
    List.Chain' (fun a b => convStep a.conv b.conv) (st :: consumeChunksTrace st cs) := by
  induction cs generalizing st with
  | nil => simp [consumeChunksTrace]
  | cons c cs ih =>
    obtain ⟨r, hr⟩ := h
    have h1 : (consumeChunk st c).conv =
        pre ++ [⟨Role.assistant, st.result ++ (utf8DecodeLoop (st.pending ++ c)).1, tA⟩] := by
      simp [consumeChunk, hr, updateLastAssistant_concat]
    rw [consumeChunksTrace]
    refine List.chain'_cons.mpr ⟨?_, ih (consumeChunk st c) ⟨_, h1⟩⟩
    right; right; right
    refine ⟨⟨Role.assistant, r, tA⟩, st.result ++ (utf8DecodeLoop (st.pending ++ c)).1, ?_, ?_⟩
    · rw [hr]; exact List.getLast?_concat _
    · rw [h1, hr, List.dropLast_concat]

/-! ## Concrete states used as witnesses -/

/-- A concrete starting state: empty transcript, message `"X"` typed,
not in RAG mode. -/
def sampleState : AppState :=
  { SystemMessage := [], userMessage := [88], model := [103], apiKey := [107],
    loading := false, error := "", conversation := [], isRagMode := false,
    dataFileStatus := none }

/-- The error string shown by the catch block is never empty. -/
theorem jsOr_ne_empty (m : String) : jsOr m "Unknown error occurred" ≠ "" := by
  unfold jsOr
  split_ifs with h
  · decide
  · exact h

/-- Every request dispatched by `handleRegularChat` goes to the plain chat
endpoint. -/
theorem handleRegularChat_requests (s : AppState) (fetch : FetchResult) (tU tA : Nat) :
    ∀ req ∈ (handleRegularChat s fetch tU tA).requests, req.endpoint = Endpoint.chat := by
  unfold handleRegularChat
  split
  · simp
  · split
    · simp
    · split
      · simp
      · split
        · simp
        · split <;> simp

/-- C1 (the claim is contradicted by the code): on a failure before the
assistant placeholder exists — here an HTTP 500 with a body present — the
catch block's unconditional `prev.slice(0, -1)` removes the just-appended
*user* turn, so the transcript reverts to its pre-submit value (here `[]`)
instead of retaining the user turn; the error message is set as claimed. -/
theorem c1_early_failure_removes_user_turn :
    (finalOf sampleState (handleRegularChat sampleState
        (FetchResult.response 500 (some ⟨[[72]], none⟩)) 0 1)).conversation = [] ∧
    (finalOf sampleState (handleRegularChat sampleState
        (FetchResult.response 500 (some ⟨[[72]], none⟩)) 0 1)).error =
      "HTTP error! status: 500" := by
  constructor
  · decide
  · decide

/-- C8: submitting a message that is empty after trimming is a no-op: the
run has no further states (transcript, error and all other fields
unchanged) and dispatches no request. -/
theorem c8_blank_message_is_noop (s : AppState) (fetch : FetchResult) (tU tA : Nat)
    (hws : jsTrim s.userMessage = []) :
    handleSubmit s fetch tU tA = ⟨[s], []⟩ := by
  unfold handleSubmit
  rw [if_pos hws]

theorem c8_blank_message_is_noop_witness :
    jsTrim ([32, 9] : List Nat) = [] ∧
    handleSubmit { sampleState with userMessage := [32, 9] }
        (FetchResult.netError "boom") 0 0 =
      ⟨[{ sampleState with userMessage := [32, 9] }], []⟩ :=
  ⟨by decide, c8_blank_message_is_noop _ (FetchResult.netError "boom") 0 0 (by decide)⟩

/-- C9: when RAG mode is on but no index is present, `handleSubmit` silently
falls back to the plain-chat path: the run is exactly the run of
`handleRegularChat`, and no request reaches the retrieval-chat endpoint. -/
theorem c9_rag_without_index_falls_back (s : AppState) (fetch : FetchResult)
    (tU tA : Nat) (_hrag : s.isRagMode = true) (hnoidx : isIndexed s = false) :
    handleSubmit s fetch tU tA = handleRegularChat s fetch tU tA ∧
    ∀ req ∈ (handleSubmit s fetch tU tA).requests, req.endpoint ≠ Endpoint.ragChat := by
  have heq : handleSubmit s fetch tU tA = handleRegularChat s fetch tU tA := by
    unfold handleSubmit
    by_cases hws : jsTrim s.userMessage = []
    · rw [if_pos hws]
      unfold handleRegularChat
      rw [if_pos hws]
    · rw [if_neg hws, if_neg (by simp [hnoidx])]
  refine ⟨heq, ?_⟩
  rw [heq]
  intro req hreq
  rw [handleRegularChat_requests s fetch tU tA req hreq]
  simp

theorem c9_rag_without_index_falls_back_witness :
    ({ sampleState with isRagMode := true }).isRagMode = true ∧
    isIndexed { sampleState with isRagMode := true } = false ∧
    (handleSubmit { sampleState with isRagMode := true } (FetchResult.netError "down") 0 0 =
       handleRegularChat { sampleState with isRagMode := true } (FetchResult.netError "down") 0 0 ∧
     ∀ req ∈ (handleSubmit { sampleState with isRagMode := true }
         (FetchResult.netError "down") 0 0).requests, req.endpoint ≠ Endpoint.ragChat) :=
  ⟨rfl, rfl,
    c9_rag_without_index_falls_back { sampleState with isRagMode := true }
      (FetchResult.netError "down") 0 0 rfl rfl⟩

/-- C10: the per-chunk updater preserves the transcript length, leaves every
turn but the last unchanged, replaces the last turn's content wholesale with
the accumulator when (and only when) the last turn is an assistant turn, and
does nothing on an empty transcript. -/
theorem c10_per_chunk_update_frame (conv : List Msg) (result : List Nat) :
    (updateLastAssistant conv result).length = conv.length ∧
    (updateLastAssistant conv result).dropLast = conv.dropLast ∧
    (∀ m, conv.getLast? = some m → m.type = Role.assistant →
      updateLastAssistant conv result = conv.dropLast ++ [{ m with content := result }]) ∧
    (∀ m, conv.getLast? = some m → m.type ≠ Role.assistant →
      updateLastAssistant conv result = conv) ∧
    (conv.getLast? = none → updateLastAssistant conv result = conv) := by
  cases h : conv.getLast? with
  | none => simp [updateLastAssistant, h]
  | some m =>
    have hne : conv ≠ [] := by
      rintro rfl
      simp at h
    have hconv : conv.dropLast ++ [m] = conv := by
      have h2 := h
      rw [List.getLast?_eq_getLast_of_ne_nil hne] at h2
      rw [← Option.some_inj.mp h2]
      exact List.dropLast_append_getLast hne
    by_cases hm : m.type = Role.assistant
    · have hval : updateLastAssistant conv result =
          conv.dropLast ++ [{ m with content := result }] := by
        simp [updateLastAssistant, h, hm]
      rw [hval]
      refine ⟨?_, ?_, ?_, ?_, ?_⟩
      · conv_rhs => rw [← hconv]
        simp
      · rw [List.dropLast_concat]
      · intro m' hm' _
        obtain rfl : m = m' := Option.some_inj.mp hm'
        rfl
      · intro m' hm' hm'2
        obtain rfl : m = m' := Option.some_inj.mp hm'
        exact absurd hm hm'2
      · intro hno
        exact absurd hno (by simp)
    · have hval : updateLastAssistant conv result = conv := by
        simp [updateLastAssistant, h, hm]
      rw [hval]
      refine ⟨rfl, rfl, ?_, fun _ _ _ => rfl, fun _ => rfl⟩
      intro m' hm' hm'2
      obtain rfl : m = m' := Option.some_inj.mp hm'
      exact absurd hm'2 hm

theorem c10_per_chunk_update_frame_witness :
    (updateLastAssistant [⟨Role.user, [1], 0⟩, ⟨Role.assistant, [2], 1⟩] [9]).length = 2 ∧
    (updateLastAssistant [⟨Role.user, [1], 0⟩, ⟨Role.assistant, [2], 1⟩] [9]).dropLast =
      ([⟨Role.user, [1], 0⟩, ⟨Role.assistant, [2], 1⟩] : List Msg).dropLast ∧
    (∀ m, ([⟨Role.user, [1], 0⟩, ⟨Role.assistant, [2], 1⟩] : List Msg).getLast? = some m →
      m.type = Role.assistant →
      updateLastAssistant [⟨Role.user, [1], 0⟩, ⟨Role.assistant, [2], 1⟩] [9] =
        ([⟨Role.user, [1], 0⟩, ⟨Role.assistant, [2], 1⟩] : List Msg).dropLast ++
          [{ m with content := [9] }]) ∧
    (∀ m, ([⟨Role.user, [1], 0⟩, ⟨Role.assistant, [2], 1⟩] : List Msg).getLast? = some m →
      m.type ≠ Role.assistant →
      updateLastAssistant [⟨Role.user, [1], 0⟩, ⟨Role.assistant, [2], 1⟩] [9] =
        [⟨Role.user, [1], 0⟩, ⟨Role.assistant, [2], 1⟩]) ∧
    (([⟨Role.user, [1], 0⟩, ⟨Role.assistant, [2], 1⟩] : List Msg).getLast? = none →
      updateLastAssistant [⟨Role.user, [1], 0⟩, ⟨Role.assistant, [2], 1⟩] [9] =
        [⟨Role.user, [1], 0⟩, ⟨Role.assistant, [2], 1⟩]) :=
  c10_per_chunk_update_frame [⟨Role.user, [1], 0⟩, ⟨Role.assistant, [2], 1⟩] [9]


/-- Full final state of a successful `handleRegularChat` run (clean end of
stream): loading released, error cleared, input cleared, and the transcript
extended by the user turn and the assistant turn holding the streaming
decode of the concatenated chunk bytes. -/
theorem handleRegularChat_success_final (s : AppState) (chunks : List (List Nat))
    (status tU tA : Nat) (hne : jsTrim s.userMessage ≠ [])
    (hok : resOk status = true) :
    finalOf s (handleRegularChat s (FetchResult.response status (some ⟨chunks, none⟩)) tU tA) =
      { s with
        loading := false
        error := ""
        userMessage := []
        conversation := s.conversation ++ [⟨Role.user, s.userMessage, tU⟩,
          ⟨Role.assistant, (utf8DecodeLoop chunks.flatten).1, tA⟩] } := by
  unfold handleRegularChat
  rw [if_neg hne]
  dsimp only []
  rw [hok]
  simp only [Bool.true_eq_false, if_false]
  rw [finalOf]
  rw [getLastD_append_right _ _ _ (by simp)]
  rw [consumeChunks_run chunks (s.conversation ++ [Msg.mk Role.user s.userMessage tU]) [] [] tA
    utf8DecodeLoop_nil]
  simp [List.append_assoc]

/-- C2 (amended to the current controller, `src/frontend/src/App.jsx`): for
every successful stream, however the bytes are fragmented across chunks —
including splits inside a multi-byte UTF-8 character, since the decoder
carries partial-byte state — the final assistant turn's content is exactly
the streaming decode of the concatenation C1++…++Cn of all chunk bytes. -/
theorem c2_stream_content_is_decoded_concat (s : AppState) (chunks : List (List Nat))
    (status tU tA : Nat) (hne : jsTrim s.userMessage ≠ [])
    (hok : resOk status = true) :
    (finalOf s (handleRegularChat s
        (FetchResult.response status (some ⟨chunks, none⟩)) tU tA)).conversation =
      s.conversation ++ [⟨Role.user, s.userMessage, tU⟩,
        ⟨Role.assistant, (utf8DecodeLoop chunks.flatten).1, tA⟩] := by
  rw [handleRegularChat_success_final s chunks status tU tA hne hok]

theorem c2_stream_content_is_decoded_concat_witness :
    jsTrim sampleState.userMessage ≠ [] ∧ resOk 200 = true ∧
    (finalOf sampleState (handleRegularChat sampleState
        (FetchResult.response 200 (some ⟨[[0xC3], [0xA9]], none⟩)) 0 1)).conversation =
      sampleState.conversation ++ [⟨Role.user, sampleState.userMessage, 0⟩,
        ⟨Role.assistant, (utf8DecodeLoop ([[0xC3], [0xA9]] : List (List Nat)).flatten).1, 1⟩] :=
  ⟨by decide, by decide,
    c2_stream_content_is_decoded_concat sampleState [[0xC3], [0xA9]] 200 0 1
      (by decide) (by decide)⟩

/-- C2 as stated is false on the `part_001` revision it also cites: that
revision decodes each chunk with a fresh `TextDecoder`, so a 2-byte
character `é` (bytes `C3 A9`) split across two chunks is not reassembled:
the final assistant content is two U+FFFD replacement characters, not the
decode `[0xE9]` of the concatenated bytes. -/
theorem c2_counterexample_part001 :
    (finalOf sampleState (handleSubmitP001 sampleState
        (FetchResult.response 200 (some ⟨[[0xC3], [0xA9]], none⟩)) 0 1)).conversation =
      sampleState.conversation ++ [⟨Role.user, sampleState.userMessage, 0⟩,
        ⟨Role.assistant, [0xFFFD, 0xFFFD], 1⟩] ∧
    (finalOf sampleState (handleSubmitP001 sampleState
        (FetchResult.response 200 (some ⟨[[0xC3], [0xA9]], none⟩)) 0 1)).conversation ≠
      sampleState.conversation ++ [⟨Role.user, sampleState.userMessage, 0⟩,
        ⟨Role.assistant, utf8DecodeFull ([[0xC3], [0xA9]] : List (List Nat)).flatten, 1⟩] := by
  constructor
  · decide
  · decide

/-- C5: a stream that ends immediately (zero chunks) finalizes the assistant
turn with empty content; the turn is kept, not rolled back. -/
theorem c5_zero_chunk_stream_keeps_assistant_turn (s : AppState) (status tU tA : Nat)
    (hne : jsTrim s.userMessage ≠ []) (hok : resOk status = true) :
    (finalOf s (handleRegularChat s
        (FetchResult.response status (some ⟨[], none⟩)) tU tA)).conversation =
      s.conversation ++ [⟨Role.user, s.userMessage, tU⟩, ⟨Role.assistant, [], tA⟩] := by
  rw [handleRegularChat_success_final s [] status tU tA hne hok]
  simp [utf8DecodeLoop_nil]

theorem c5_zero_chunk_stream_keeps_assistant_turn_witness :
    jsTrim sampleState.userMessage ≠ [] ∧ resOk 204 = true ∧
    (finalOf sampleState (handleRegularChat sampleState
        (FetchResult.response 204 (some ⟨[], none⟩)) 0 1)).conversation =
      sampleState.conversation ++ [⟨Role.user, sampleState.userMessage, 0⟩,
        ⟨Role.assistant, [], 1⟩] :=
  ⟨by decide, by decide,
    c5_zero_chunk_stream_keeps_assistant_turn sampleState 204 0 1 (by decide) (by decide)⟩


theorem drop_one_dropLast_concat {α : Type} (a : α) (l1 ss : List α) (x : α) :
    ((((a :: l1) ++ ss) ++ [x]).drop 1).dropLast = l1 ++ ss := by
  simp [List.cons_append, List.dropLast_concat]

theorem drop_one_dropLast_append3 {α : Type} (a : α) (l1 ss : List α) (x y z : α) :
    ((((a :: l1) ++ ss) ++ [x, y, z]).drop 1).dropLast = (l1 ++ ss) ++ [x, y] := by
  simp only [List.cons_append, List.drop_succ_cons, List.drop_zero]
  rw [List.dropLast_append_of_ne_nil _ (by simp)]
  rfl

/-- C3: if the stream read throws after emitting k > 0 chunks, the assistant
placeholder is removed entirely (not left with partial content): the final
transcript holds the user turn and nothing after it, and a non-empty error
message is set. -/
theorem c3_midstream_error_rolls_back_assistant (s : AppState) (chunks : List (List Nat))
    (msg : String) (status tU tA : Nat) (hne : jsTrim s.userMessage ≠ [])
    (hok : resOk status = true) (_hk : chunks ≠ []) :
    (finalOf s (handleRegularChat s
        (FetchResult.response status (some ⟨chunks, some msg⟩)) tU tA)).conversation =
      s.conversation ++ [⟨Role.user, s.userMessage, tU⟩] ∧
    (finalOf s (handleRegularChat s
        (FetchResult.response status (some ⟨chunks, some msg⟩)) tU tA)).error ≠ "" := by
  unfold handleRegularChat
  rw [if_neg hne]
  dsimp only []
  rw [hok]
  simp only [Bool.true_eq_false, if_false]
  rw [finalOf]
  rw [getLastD_append_right _ _ _ (by simp [catchTail])]
  rw [consumeChunks_run chunks (s.conversation ++ [Msg.mk Role.user s.userMessage tU]) [] [] tA
    utf8DecodeLoop_nil]
  constructor
  · simp [catchTail, List.dropLast_concat]
  · simp only [catchTail]
    simp only [List.getLastD_cons]
    exact jsOr_ne_empty msg

theorem c3_midstream_error_rolls_back_assistant_witness :
    jsTrim sampleState.userMessage ≠ [] ∧ resOk 200 = true ∧ ([[72]] : List (List Nat)) ≠ [] ∧
    ((finalOf sampleState (handleRegularChat sampleState
        (FetchResult.response 200 (some ⟨[[72]], some "network interrupted"⟩)) 0 1)).conversation =
      sampleState.conversation ++ [⟨Role.user, sampleState.userMessage, 0⟩] ∧
    (finalOf sampleState (handleRegularChat sampleState
        (FetchResult.response 200 (some ⟨[[72]], some "network interrupted"⟩)) 0 1)).error ≠ "") :=
  ⟨by decide, by decide, by decide,
    c3_midstream_error_rolls_back_assistant sampleState [[72]] "network interrupted" 200 0 1
      (by decide) (by decide) (by decide)⟩

/-- C4: for every submission of a message that is non-empty after trimming,
the first five trace states are fixed and independent of the network
outcome: the transcript grows by exactly one user turn whose content is the
submitted text (states 4 and 5), before any state that depends on the fetch
result. -/
theorem c4_user_turn_appended_before_network (s : AppState) (fetch : FetchResult)
    (tU tA : Nat) (hne : jsTrim s.userMessage ≠ []) :
    (handleRegularChat s fetch tU tA).trace.take 5 =
      [s, { s with loading := true }, { s with loading := true, error := "" },
       { s with
         loading := true
         error := ""
         conversation := s.conversation ++ [⟨Role.user, s.userMessage, tU⟩] },
       { s with
         loading := true
         error := ""
         conversation := s.conversation ++ [⟨Role.user, s.userMessage, tU⟩]
         userMessage := [] }] := by
  unfold handleRegularChat
  rw [if_neg hne]
  rcases fetch with msg | ⟨status, body⟩
  · rfl
  · dsimp only []
    by_cases hok : resOk status = false
    · rw [if_pos hok]
      rfl
    · rw [if_neg hok]
      rcases body with _ | ⟨chunks, serr⟩
      · rfl
      · rcases serr with _ | msg <;> rfl

theorem c4_user_turn_appended_before_network_witness :
    jsTrim sampleState.userMessage ≠ [] ∧
    (handleRegularChat sampleState (FetchResult.netError "down") 0 0).trace.take 5 =
      [sampleState, { sampleState with loading := true },
       { sampleState with loading := true, error := "" },
       { sampleState with
         loading := true
         error := ""
         conversation := sampleState.conversation ++ [⟨Role.user, sampleState.userMessage, 0⟩] },
       { sampleState with
         loading := true
         error := ""
         conversation := sampleState.conversation ++ [⟨Role.user, sampleState.userMessage, 0⟩]
         userMessage := [] }] :=
  ⟨by decide,
    c4_user_turn_appended_before_network sampleState (FetchResult.netError "down") 0 0 (by decide)⟩

/-- C7: on every submission of a non-blank message, the busy (`loading`)
flag is false at submission start, true at every strictly intermediate
state, and false again at the terminal state — on every path, success or
failure. -/
theorem c7_busy_flag_lifecycle (s : AppState) (fetch : FetchResult) (tU tA : Nat)
    (hne : jsTrim s.userMessage ≠ []) (h0 : s.loading = false) :
    (∀ s0 ∈ (handleRegularChat s fetch tU tA).trace.head?, s0.loading = false) ∧
    (finalOf s (handleRegularChat s fetch tU tA)).loading = false ∧
    (∀ s' ∈ ((handleRegularChat s fetch tU tA).trace.drop 1).dropLast, s'.loading = true) := by
  unfold handleRegularChat
  rw [if_neg hne]
  rcases fetch with msg | ⟨status, body⟩
  · refine ⟨by simpa using h0, ?_, ?_⟩
    · rw [finalOf]
      simp [catchTail]
    · simp [catchTail]
  · dsimp only []
    by_cases hok : resOk status = false
    · rw [if_pos hok]
      refine ⟨by simpa using h0, ?_, ?_⟩
      · rw [finalOf]
        simp [catchTail]
      · simp [catchTail]
    · rw [if_neg hok]
      rcases body with _ | ⟨chunks, serr⟩
      · refine ⟨by simpa using h0, ?_, ?_⟩
        · rw [finalOf]
          simp [catchTail]
        · simp [catchTail]
      · rcases serr with _ | msg
        · dsimp only []
          refine ⟨by simpa using h0, ?_, ?_⟩
          · rw [finalOf, getLastD_append_right _ _ _ (by simp)]
            rfl
          · rw [drop_one_dropLast_concat]
            intro s' hs'
            rcases List.mem_append.mp hs' with h | h
            · simp only [List.mem_cons, List.not_mem_nil, or_false] at h
              rcases h with rfl | rfl | rfl | rfl | rfl <;> rfl
            · obtain ⟨st, -, rfl⟩ := List.mem_map.mp h
              rfl
        · dsimp only []
          refine ⟨by simpa using h0, ?_, ?_⟩
          · rw [finalOf, getLastD_append_right _ _ _ (by simp [catchTail])]
            simp [catchTail]
          · simp only [catchTail]
            rw [drop_one_dropLast_append3]
            intro s' hs'
            rcases List.mem_append.mp hs' with h | h
            · rcases List.mem_append.mp h with h | h
              · simp only [List.mem_cons, List.not_mem_nil, or_false] at h
                rcases h with rfl | rfl | rfl | rfl | rfl <;> rfl
              · obtain ⟨st, -, rfl⟩ := List.mem_map.mp h
                rfl
            · simp only [List.mem_cons, List.not_mem_nil, or_false] at h
              rcases h with rfl | rfl <;> rfl

theorem c7_busy_flag_lifecycle_witness :
    jsTrim sampleState.userMessage ≠ [] ∧ sampleState.loading = false ∧
    ((∀ s0 ∈ (handleRegularChat sampleState (FetchResult.netError "down") 0 0).trace.head?,
        s0.loading = false) ∧
     (finalOf sampleState (handleRegularChat sampleState
        (FetchResult.netError "down") 0 0)).loading = false ∧
     (∀ s' ∈ ((handleRegularChat sampleState
        (FetchResult.netError "down") 0 0).trace.drop 1).dropLast, s'.loading = true)) :=
  ⟨by decide, rfl,
    c7_busy_flag_lifecycle sampleState (FetchResult.netError "down") 0 0 (by decide) rfl⟩


theorem handleRegularChat_trace_goodConv (s : AppState) (fetch : FetchResult)
    (tU tA : Nat) (hgood : GoodConv s.conversation) :
    ∀ s' ∈ (handleRegularChat s fetch tU tA).trace, GoodConv s'.conversation := by
  have huser : GoodConv (s.conversation ++ [Msg.mk Role.user s.userMessage tU]) :=
    GoodConv.user _ _ hgood rfl
  have hpair : ∀ r : List Nat,
      GoodConv ((s.conversation ++ [Msg.mk Role.user s.userMessage tU]) ++
        [Msg.mk Role.assistant r tA]) := fun r => by
    have h2 := GoodConv.pair s.conversation (Msg.mk Role.user s.userMessage tU)
      (Msg.mk Role.assistant r tA) hgood rfl rfl
    simpa [List.append_assoc] using h2
  unfold handleRegularChat
  by_cases hne : jsTrim s.userMessage = []
  · rw [if_pos hne]
    intro s' hs'
    simp only [List.mem_singleton] at hs'
    subst hs'
    exact hgood
  · rw [if_neg hne]
    rcases fetch with msg | ⟨status, body⟩
    · intro s' hs'
      simp only [catchTail, List.cons_append, List.nil_append, List.mem_cons,
        List.not_mem_nil, or_false] at hs'
      rcases hs' with rfl|rfl|rfl|rfl|rfl|rfl|rfl|rfl <;>
        first
          | exact hgood
          | exact huser
          | (dsimp only []; rw [List.dropLast_concat]; exact hgood)
    · dsimp only []
      by_cases hok : resOk status = false
      · rw [if_pos hok]
        intro s' hs'
        simp only [catchTail, List.cons_append, List.nil_append, List.mem_cons,
          List.not_mem_nil, or_false] at hs'
        rcases hs' with rfl|rfl|rfl|rfl|rfl|rfl|rfl|rfl <;>
          first
            | exact hgood
            | exact huser
            | (dsimp only []; rw [List.dropLast_concat]; exact hgood)
      · rw [if_neg hok]
        rcases body with _ | ⟨chunks, serr⟩
        · intro s' hs'
          simp only [catchTail, List.cons_append, List.nil_append, List.mem_cons,
            List.not_mem_nil, or_false] at hs'
          rcases hs' with rfl|rfl|rfl|rfl|rfl|rfl|rfl|rfl <;>
            first
              | exact hgood
              | exact huser
              | (dsimp only []; rw [List.dropLast_concat]; exact hgood)
        · rcases serr with _ | msg
          · dsimp only []
            intro s' hs'
            rcases List.mem_append.mp hs' with h | h
            · rcases List.mem_append.mp h with h | h
              · simp only [List.mem_cons, List.not_mem_nil, or_false] at h
                rcases h with rfl|rfl|rfl|rfl|rfl|rfl <;>
                  first
                    | exact hgood
                    | exact huser
                    | exact hpair []
              · obtain ⟨st, hst, rfl⟩ := List.mem_map.mp h
                obtain ⟨r', hr'⟩ := consumeChunksTrace_conv chunks
                  ⟨[], [], (s.conversation ++ [Msg.mk Role.user s.userMessage tU]) ++
                    [Msg.mk Role.assistant [] tA]⟩
                  (s.conversation ++ [Msg.mk Role.user s.userMessage tU]) tA ⟨[], rfl⟩ st hst
                dsimp only []
                rw [hr']
                exact hpair r'
            · simp only [List.mem_singleton] at h
              subst h
              obtain ⟨r', hr'⟩ := consumeChunks_conv chunks
                ⟨[], [], (s.conversation ++ [Msg.mk Role.user s.userMessage tU]) ++
                  [Msg.mk Role.assistant [] tA]⟩
                (s.conversation ++ [Msg.mk Role.user s.userMessage tU]) tA ⟨[], rfl⟩
              dsimp only []
              rw [hr']
              exact hpair r'
          · dsimp only []
            intro s' hs'
            obtain ⟨r', hr'⟩ := consumeChunks_conv chunks
              ⟨[], [], (s.conversation ++ [Msg.mk Role.user s.userMessage tU]) ++
                [Msg.mk Role.assistant [] tA]⟩
              (s.conversation ++ [Msg.mk Role.user s.userMessage tU]) tA ⟨[], rfl⟩
            rcases List.mem_append.mp hs' with h | h
            · rcases List.mem_append.mp h with h | h
              · simp only [List.mem_cons, List.not_mem_nil, or_false] at h
                rcases h with rfl|rfl|rfl|rfl|rfl|rfl <;>
                  first
                    | exact hgood
                    | exact huser
                    | exact hpair []
              · obtain ⟨st, hst, rfl⟩ := List.mem_map.mp h
                obtain ⟨r'', hr''⟩ := consumeChunksTrace_conv chunks
                  ⟨[], [], (s.conversation ++ [Msg.mk Role.user s.userMessage tU]) ++
                    [Msg.mk Role.assistant [] tA]⟩
                  (s.conversation ++ [Msg.mk Role.user s.userMessage tU]) tA ⟨[], rfl⟩ st hst
                dsimp only []
                rw [hr'']
                exact hpair r''
            · simp only [catchTail, List.mem_cons, List.not_mem_nil, or_false] at h
              rcases h with rfl | rfl | rfl
              · dsimp only []
                rw [hr']
                exact hpair r'
              · dsimp only []
                rw [hr', List.dropLast_concat]
                exact huser
              · dsimp only []
                rw [hr', List.dropLast_concat]
                exact huser


theorem getLast?_cons_eq_getLastD {α : Type} (a : α) (l : List α) :
    (a :: l).getLast? = some (l.getLastD a) := by
  induction l generalizing a with
  | nil => rfl
  | cons b l ih => rw [List.getLast?_cons_cons, ih, List.getLastD_cons]

theorem getLastD_map {α β : Type} (f : α → β) (l : List α) (d : α) :
    (l.map f).getLastD (f d) = f (l.getLastD d) := by
  induction l generalizing d with
  | nil => rfl
  | cons x l ih => simp only [List.map_cons, List.getLastD_cons, ih]

theorem chain_stream_block (s5 : AppState) (pre : List Msg) (tA : Nat)
    (chunks : List (List Nat)) (tail : List AppState)
    (hconv : s5.conversation = pre ++ [⟨Role.assistant, [], tA⟩])
    (hhead : ∀ y ∈ tail.head?,
      convStep (consumeChunks ⟨[], [], s5.conversation⟩ chunks).conv y.conversation)
    (htail : List.Chain' (fun a b => convStep a.conversation b.conversation) tail) :
    List.Chain' (fun a b => convStep a.conversation b.conversation)
      ((s5 :: (consumeChunksTrace ⟨[], [], s5.conversation⟩ chunks).map
        (fun st => { s5 with conversation := st.conv })) ++ tail) := by
  have hmap : s5 :: (consumeChunksTrace ⟨[], [], s5.conversation⟩ chunks).map
      (fun st => { s5 with conversation := st.conv }) =
      ((⟨[], [], s5.conversation⟩ : StreamState) ::
        consumeChunksTrace ⟨[], [], s5.conversation⟩ chunks).map
        (fun st => { s5 with conversation := st.conv }) := rfl
  rw [hmap]
  apply List.Chain'.append
  · rw [List.chain'_map]
    exact consumeChunksTrace_chain chunks _ pre tA ⟨[], hconv⟩
  · exact htail
  · intro x hx y hy
    rw [List.map_cons, getLast?_cons_eq_getLastD, Option.mem_some_iff] at hx
    subst hx
    rw [getLastD_map, consumeChunksTrace_getLastD]
    exact hhead y hy

theorem handleRegularChat_trace_chain (s : AppState) (fetch : FetchResult) (tU tA : Nat) :
    List.Chain' (fun a b => convStep a.conversation b.conversation)
      (handleRegularChat s fetch tU tA).trace := by
  unfold handleRegularChat
  by_cases hne : jsTrim s.userMessage = []
  · rw [if_pos hne]
    exact List.chain'_singleton _
  · rw [if_neg hne]
    rcases fetch with msg | ⟨status, body⟩
    · simp only [catchTail, List.cons_append, List.nil_append]
      refine List.chain'_cons.mpr ⟨Or.inl rfl, List.chain'_cons.mpr ⟨Or.inl rfl,
        List.chain'_cons.mpr ⟨Or.inr (Or.inl ⟨_, rfl⟩), List.chain'_cons.mpr ⟨Or.inl rfl,
        List.chain'_cons.mpr ⟨Or.inl rfl, List.chain'_cons.mpr ⟨Or.inr (Or.inr (Or.inl rfl)),
        List.chain'_cons.mpr ⟨Or.inl rfl, List.chain'_singleton _⟩⟩⟩⟩⟩⟩⟩
    · dsimp only []
      by_cases hok : resOk status = false
      · rw [if_pos hok]
        simp only [catchTail, List.cons_append, List.nil_append]
        refine List.chain'_cons.mpr ⟨Or.inl rfl, List.chain'_cons.mpr ⟨Or.inl rfl,
          List.chain'_cons.mpr ⟨Or.inr (Or.inl ⟨_, rfl⟩), List.chain'_cons.mpr ⟨Or.inl rfl,
          List.chain'_cons.mpr ⟨Or.inl rfl, List.chain'_cons.mpr ⟨Or.inr (Or.inr (Or.inl rfl)),
          List.chain'_cons.mpr ⟨Or.inl rfl, List.chain'_singleton _⟩⟩⟩⟩⟩⟩⟩
      · rw [if_neg hok]
        rcases body with _ | ⟨chunks, serr⟩
        · simp only [catchTail, List.cons_append, List.nil_append]
          refine List.chain'_cons.mpr ⟨Or.inl rfl, List.chain'_cons.mpr ⟨Or.inl rfl,
            List.chain'_cons.mpr ⟨Or.inr (Or.inl ⟨_, rfl⟩), List.chain'_cons.mpr ⟨Or.inl rfl,
            List.chain'_cons.mpr ⟨Or.inl rfl, List.chain'_cons.mpr ⟨Or.inr (Or.inr (Or.inl rfl)),
            List.chain'_cons.mpr ⟨Or.inl rfl, List.chain'_singleton _⟩⟩⟩⟩⟩⟩⟩
        · rcases serr with _ | msg
          · dsimp only []
            simp only [List.cons_append, List.nil_append]
            refine List.chain'_cons.mpr ⟨Or.inl rfl, List.chain'_cons.mpr ⟨Or.inl rfl,
              List.chain'_cons.mpr ⟨Or.inr (Or.inl ⟨_, rfl⟩), List.chain'_cons.mpr ⟨Or.inl rfl,
              List.chain'_cons'.mpr ⟨?_, ?_⟩⟩⟩⟩⟩
            · intro y hy
              simp only [List.cons_append, List.head?_cons, Option.mem_some_iff] at hy
              subst hy
              exact Or.inr (Or.inl ⟨_, rfl⟩)
            · exact chain_stream_block _ (s.conversation ++ [Msg.mk Role.user s.userMessage tU])
                tA chunks _ rfl
                (fun y hy => by
                  simp only [List.head?_cons, Option.mem_some_iff] at hy
                  subst hy
                  exact Or.inl rfl)
                (List.chain'_singleton _)
          · dsimp only []
            simp only [List.cons_append, List.nil_append]
            refine List.chain'_cons.mpr ⟨Or.inl rfl, List.chain'_cons.mpr ⟨Or.inl rfl,
              List.chain'_cons.mpr ⟨Or.inr (Or.inl ⟨_, rfl⟩), List.chain'_cons.mpr ⟨Or.inl rfl,
              List.chain'_cons'.mpr ⟨?_, ?_⟩⟩⟩⟩⟩
            · intro y hy
              simp only [List.cons_append, List.head?_cons, Option.mem_some_iff] at hy
              subst hy
              exact Or.inr (Or.inl ⟨_, rfl⟩)
            · refine chain_stream_block _ (s.conversation ++ [Msg.mk Role.user s.userMessage tU])
                tA chunks _ rfl
                (fun y hy => by
                  simp only [catchTail, List.head?_cons, Option.mem_some_iff] at hy
                  subst hy
                  exact Or.inl rfl)
                ?_
              simp only [catchTail]
              exact List.chain'_cons.mpr ⟨Or.inr (Or.inr (Or.inl rfl)),
                List.chain'_cons.mpr ⟨Or.inl rfl, List.chain'_singleton _⟩⟩


/-- With an indexed data file, the RAG handler's state trace coincides with
the plain handler's: the two controllers differ only in the endpoint and
payload of the request they post. -/
theorem handleRagChat_trace_eq (s : AppState) (fetch : FetchResult) (tU tA : Nat)
    (hidx : isIndexed s = true) :
    (handleRagChat s fetch tU tA).trace = (handleRegularChat s fetch tU tA).trace := by
  unfold handleRagChat handleRegularChat
  by_cases hne : jsTrim s.userMessage = []
  · rw [if_pos (Or.inl hne : jsTrim s.userMessage = [] ∨ isIndexed s = false), if_pos hne]
  · rw [if_neg (by simp [hne, hidx]), if_neg hne]
    rcases fetch with msg | ⟨status, body⟩
    · rfl
    · dsimp only []
      by_cases hok : resOk status = false
      · rw [if_pos hok, if_pos hok]
      · rw [if_neg hok, if_neg hok]
        rcases body with _ | ⟨chunks, serr⟩
        · rfl
        · rcases serr with _ | msg <;> rfl

/-- Whatever mode is selected, `handleSubmit` produces the same state trace
as the plain controller. -/
theorem handleSubmit_trace_eq (s : AppState) (fetch : FetchResult) (tU tA : Nat) :
    (handleSubmit s fetch tU tA).trace = (handleRegularChat s fetch tU tA).trace := by
  unfold handleSubmit
  by_cases hne : jsTrim s.userMessage = []
  · rw [if_pos hne]
    unfold handleRegularChat
    rw [if_pos hne]
  · rw [if_neg hne]
    by_cases hrag : s.isRagMode = true ∧ isIndexed s = true
    · rw [if_pos hrag]
      exact handleRagChat_trace_eq s fetch tU tA hrag.2
    · rw [if_neg hrag]

/-- Transcript values reachable as the durable conversation between
submissions: the empty transcript of a fresh session (`clearConversation`
also yields it), and the final transcript of any submission run from a
state whose transcript is reachable — every other state field (typed input,
settings, mode toggles, upload status) is arbitrary, since nothing but the
submit handlers and `clearConversation` writes `conversation`. -/
inductive ReachableConv : List Msg → Prop
  | init : ReachableConv []
  | submit (c : List Msg) (h : ReachableConv c) (s : AppState) (hs : s.conversation = c)
      (fetch : FetchResult) (tU tA : Nat) :
      ReachableConv (finalOf s (handleSubmit s fetch tU tA)).conversation

theorem reachableConv_goodConv (c : List Msg) (h : ReachableConv c) : GoodConv c := by
  induction h with
  | init => exact GoodConv.nil
  | submit c h s hs fetch tU tA ih =>
    have hgood : GoodConv s.conversation := hs ▸ ih
    rw [finalOf, handleSubmit_trace_eq]
    rcases getLastD_mem_or (handleRegularChat s fetch tU tA).trace s with heq | hmem
    · rw [heq]
      exact hgood
    · exact handleRegularChat_trace_goodConv s fetch tU tA hgood _ hmem

/-- C6: starting from any reachable transcript, every state of any
submission run satisfies the assistant-placement invariants (the transcript
never begins with an assistant turn and never holds two adjacent assistant
turns, so every assistant turn immediately follows a user turn), and
consecutive trace states differ only by appending one turn, removing the
last turn, or replacing the last turn's content — i.e. at most one turn is
ever in flight and it is always the last element. -/
theorem c6_transcript_invariants (c : List Msg) (hc : ReachableConv c) (s : AppState)
    (hs : s.conversation = c) (fetch : FetchResult) (tU tA : Nat) :
    (∀ s' ∈ (handleSubmit s fetch tU tA).trace, assistantOk s'.conversation) ∧
    List.Chain' (fun a b => convStep a.conversation b.conversation)
      (handleSubmit s fetch tU tA).trace := by
  have hgood : GoodConv s.conversation := hs ▸ reachableConv_goodConv c hc
  rw [handleSubmit_trace_eq]
  exact ⟨fun s' hmem =>
      goodConv_assistantOk _ (handleRegularChat_trace_goodConv s fetch tU tA hgood s' hmem),
    handleRegularChat_trace_chain s fetch tU tA⟩

theorem c6_transcript_invariants_witness :
    (∀ s' ∈ (handleSubmit sampleState (FetchResult.netError "down") 0 0).trace,
       assistantOk s'.conversation) ∧
    List.Chain' (fun a b => convStep a.conversation b.conversation)
      (handleSubmit sampleState (FetchResult.netError "down") 0 0).trace :=
  c6_transcript_invariants [] ReachableConv.init sampleState rfl
    (FetchResult.netError "down") 0 0

end Chat
